import Mathlib

set_option maxRecDepth 100000

/-!
Verification of the hashstructure library (hashstructure.go): a shallow
embedding of the reflect-based hashing walker, its CRC-64/ECMA accumulator
and its option handling, together with proofs about the embedding.
-/

namespace Hashstructure

/-! ## The accumulator: CRC-64 with the ECMA polynomial (Go hash/crc64)

Go creates the default hasher with crc64.New(crc64.MakeTable(crc64.ECMA)).
The digest state is a single 64-bit value, Reset sets it to 0, Write runs
the reflected table-driven update, and Sum64 returns the state.  We model
64-bit words as natural numbers below 2^64 and bytes as naturals below 256.
-/

/-- All 64 bits set: the mask used for the bitwise complement on uint64. -/
def mask64 : Nat := 2 ^ 64 - 1

/-- crc64.ECMA, the reflected ECMA polynomial from the Go standard library. -/
def ecmaPoly : Nat := 0xC96C5795D7870F42

/-- One bit-step of crc64.MakeTable: shift right, xor the polynomial on carry. -/
def crcStep (c : Nat) : Nat := if c % 2 = 1 then (c / 2) ^^^ ecmaPoly else c / 2

/-- Entry b of the table built by crc64.MakeTable(crc64.ECMA): eight bit-steps. -/
def crc64Table (b : Nat) : Nat :=
  crcStep (crcStep (crcStep (crcStep (crcStep (crcStep (crcStep (crcStep b)))))))

/-- One byte of the crc64 update loop: crc = tab[byte(crc)^v] ^ (crc >> 8). -/
def crc64UpdateByte (c b : Nat) : Nat := crc64Table ((c % 256) ^^^ b) ^^^ (c / 256)

/-- crc64 update(crc, tab, p): complement, per-byte table steps, complement.
Each Write call of the Go digest runs exactly this on its byte slice. -/
def crc64Write (c : Nat) (bs : List Nat) : Nat :=
  mask64 ^^^ (bs.foldl crc64UpdateByte (mask64 ^^^ c))

/-! ## Byte encodings written by binary.Write(w, binary.LittleEndian, x) -/

/-- Little-endian encoding of the low w bytes of a natural number, as
binary.Write produces for a fixed-width unsigned integer. -/
def leBytes (w x : Nat) : List Nat := (List.range w).map fun i => x / 256 ^ i % 256

/-- Little-endian two's-complement encoding of a signed integer on w bytes,
as binary.Write produces for a fixed-width signed integer. -/
def intLEBytes (w : Nat) (n : Int) : List Nat :=
  leBytes w (n % ((2 ^ (8 * w) : Nat) : Int)).toNat

/-! ## Go values, as the walker distinguishes them

The walker dispatches on reflect.Kind.  We model the kinds the library can
encounter on ordinary data: the sized and machine integers, bool, string
(a Go string is a byte sequence; we carry the bytes), array, slice, map,
struct, pointer and interface (each possibly nil), and func and chan as
representatives of the kinds the default case rejects.  Struct fields carry
the field name, the struct tag as a key/value list, the exportedness of the
field (reflect marks values read from unexported fields read-only), and the
field value.  Floating point kinds are outside the model.  The lists are
spelled as mutual inductive types so that the walker below is structurally
recursive. -/

mutual
inductive GoVal where
  | intV (n : Int)
  | int8V (n : Int)
  | int16V (n : Int)
  | int32V (n : Int)
  | int64V (n : Int)
  | uintV (n : Nat)
  | uint8V (n : Nat)
  | uint16V (n : Nat)
  | uint32V (n : Nat)
  | uint64V (n : Nat)
  | boolV (b : Bool)
  | stringV (bytes : List Nat)
  | arrayV (elems : GoList)
  | sliceV (elems : GoList)
  | mapV (entries : GoEntries)
  | structV (fields : GoFields)
  | ptrV (x : GoVal)
  | ptrNil
  | interfaceV (x : GoVal)
  | interfaceNil
  | funcV
  | chanV

inductive GoList where
  | nil
  | cons (x : GoVal) (rest : GoList)

inductive GoEntries where
  | nil
  | cons (key val : GoVal) (rest : GoEntries)

inductive GoFields where
  | nil
  | cons (name : String) (tags : List (String × String)) (exported : Bool)
      (val : GoVal) (rest : GoFields)
end

/-- A failure of the walk: either an error value returned through the error
results (the only ones the code creates are the unknown-kind errors and
errors returned by the inclusion hooks), or the reflect panic raised by
calling Interface() on a value read from an unexported field. -/
inductive Failure where
  | goError (msg : String)
  | roPanic
deriving DecidableEq

/-- visitOpts: the context passed down one recursion level.  Flags is the
set bit, Struct/StructField identify the owning record for the map hook. -/
structure VisitOpts where
  setFlag : Bool
  parent : Option GoVal
  structField : String

/-- The capability queries: which values implement Includable and
IncludableMap, and with which hook behavior.  This mirrors the two
type-assertion sites parent.(Includable) and opts.Struct.(IncludableMap)
of the source; the hook bodies (interface implementations supplied by the
hashed types) live outside hashstructure.go, so they are parameters here. -/
structure HookEnv where
  incl : GoVal → Option (String → GoVal → Except String Bool)
  inclMap : GoVal → Option (String → GoVal → GoVal → Except String Bool)

/-- The environment for values that implement neither capability. -/
def noHooks : HookEnv := ⟨fun _ => none, fun _ => none⟩

/-- reflect.StructTag.Get: the value stored under a key, empty if absent. -/
def tagGet (tags : List (String × String)) (key : String) : String :=
  match tags.find? (fun p => p.1 == key) with
  | some p => p.2
  | none => ""

/-- The set flag of a context: opts != nil && (opts.Flags & visitFlagSet) != 0. -/
def optsSet (vopts : Option VisitOpts) : Bool :=
  match vopts with
  | some o => o.setFlag
  | none => false

/-- The IncludableMap hook of the owning record of a context:
opts != nil && opts.Struct != nil && opts.Struct implements the capability. -/
def optsParentHook (env : HookEnv) (vopts : Option VisitOpts) :
    Option (String → GoVal → GoVal → Except String Bool) :=
  match vopts with
  | some o => match o.parent with | some p => env.inclMap p | none => none
  | none => none

/-- The StructField name of a context (empty for the empty context). -/
def optsField (vopts : Option VisitOpts) : String :=
  match vopts with
  | some o => o.structField
  | none => ""

/-- The guarded Includable call: if include != nil consult it, otherwise
include the field.  An absent capability means include everything. -/
def inclApp (incl : Option (String → GoVal → Except String Bool))
    (n : String) (v : GoVal) : Except String Bool :=
  match incl with
  | some g => g n v
  | none => .ok true

/-- The guarded IncludableMap call: if includeMap != nil consult it,
otherwise retain the entry. -/
def inclMapApp (im : Option (String → GoVal → GoVal → Except String Bool))
    (fn : String) (k v : GoVal) : Except String Bool :=
  match im with
  | some f => f fn k v
  | none => .ok true

/-! ## The walker

visit mirrors walker.visit.  The accumulator state acc is the crc64 digest
state of the shared sink w.w; a successful visit returns the new state.
The flag ro models reflect's read-only flag: a value read from an
unexported struct field carries it, and calling Interface() on such a value
panics.  The kinds int, uint and bool are re-wrapped through reflect.ValueOf
before writing (clearing the flag); the sized kinds are written through
v.Interface() directly and hence panic when read-only.  Sub-hashes of map
keys, map values and set elements call Hash(x, nil), that is: a fresh
default accumulator (state 0) and the default tag name, with empty context.
-/

mutual
def visit (env : HookEnv) (tag : String) (acc : Nat) (ro : Bool) (v : GoVal)
    (vopts : Option VisitOpts) : Except Failure Nat :=
  match v with
  | .interfaceV x => visit env tag acc ro x vopts
  | .ptrV x => visit env tag acc ro x vopts
  | .interfaceNil => .ok (crc64Write acc (intLEBytes 1 0))
  | .ptrNil => .ok (crc64Write acc (intLEBytes 1 0))
  | .intV n => .ok (crc64Write acc (intLEBytes 8 n))
  | .uintV n => .ok (crc64Write acc (leBytes 8 n))
  | .boolV b => .ok (crc64Write acc (intLEBytes 1 (if b then 1 else 0)))
  | .int8V n => if ro then .error .roPanic else .ok (crc64Write acc (intLEBytes 1 n))
  | .int16V n => if ro then .error .roPanic else .ok (crc64Write acc (intLEBytes 2 n))
  | .int32V n => if ro then .error .roPanic else .ok (crc64Write acc (intLEBytes 4 n))
  | .int64V n => if ro then .error .roPanic else .ok (crc64Write acc (intLEBytes 8 n))
  | .uint8V n => if ro then .error .roPanic else .ok (crc64Write acc (leBytes 1 n))
  | .uint16V n => if ro then .error .roPanic else .ok (crc64Write acc (leBytes 2 n))
  | .uint32V n => if ro then .error .roPanic else .ok (crc64Write acc (leBytes 4 n))
  | .uint64V n => if ro then .error .roPanic else .ok (crc64Write acc (leBytes 8 n))
  | .stringV bs => .ok (crc64Write acc bs)
  | .arrayV xs => visitSeq env tag acc ro xs
  | .sliceV xs =>
    if optsSet vopts then
      match visitSet env ro xs 0 with
      | .ok h => .ok (crc64Write acc (leBytes 8 h))
      | .error f => .error f
    else visitSeq env tag acc ro xs
  | .mapV es =>
    match visitEntries env ro (optsParentHook env vopts) (optsField vopts) es 0 with
    | .ok h => .ok (crc64Write acc (leBytes 8 h))
    | .error f => .error f
  | .structV fs =>
    if ro then .error .roPanic
    else visitFields env tag acc ro (.structV fs) (env.incl (.structV fs)) fs
  | .funcV => .error (.goError "unknown kind to hash: func")
  | .chanV => .error (.goError "unknown kind to hash: chan")

def visitSeq (env : HookEnv) (tag : String) (acc : Nat) (ro : Bool) (xs : GoList) :
    Except Failure Nat :=
  match xs with
  | .nil => .ok acc
  | .cons x rest =>
    match visit env tag acc ro x none with
    | .ok acc1 => visitSeq env tag acc1 ro rest
    | .error f => .error f

def visitSet (env : HookEnv) (ro : Bool) (xs : GoList) (h : Nat) : Except Failure Nat :=
  match xs with
  | .nil => .ok h
  | .cons x rest =>
    if ro then .error .roPanic
    else
      match visit env "hash" 0 false x none with
      | .ok hc => visitSet env ro rest (h ^^^ hc)
      | .error f => .error f

def visitEntries (env : HookEnv) (ro : Bool)
    (inclM : Option (String → GoVal → GoVal → Except String Bool))
    (fieldName : String) (es : GoEntries) (h : Nat) : Except Failure Nat :=
  match es with
  | .nil => .ok h
  | .cons k val rest =>
    if ro then .error .roPanic
    else
      match inclMapApp inclM fieldName k val with
      | .error m => .error (.goError m)
      | .ok false => visitEntries env ro inclM fieldName rest h
      | .ok true =>
        match visit env "hash" 0 false k none with
        | .error f => .error f
        | .ok kh =>
          match visit env "hash" 0 false val none with
          | .error f => .error f
          | .ok vh => visitEntries env ro inclM fieldName rest (h ^^^ kh ^^^ vh)

def visitFields (env : HookEnv) (tag : String) (acc : Nat) (ro : Bool) (parent : GoVal)
    (incl : Option (String → GoVal → Except String Bool)) (fs : GoFields) :
    Except Failure Nat :=
  match fs with
  | .nil => .ok acc
  | .cons name tags exported val rest =>
    if name = "_" then visitFields env tag acc ro parent incl rest
    else if tagGet tags tag = "ignore" then visitFields env tag acc ro parent incl rest
    else
      match inclApp incl name val with
      | .error m => .error (.goError m)
      | .ok false => visitFields env tag acc ro parent incl rest
      | .ok true =>
        match visit env tag acc (ro || !exported) val
            (some ⟨tagGet tags tag = "set", some parent, name⟩) with
        | .error f => .error f
        | .ok acc1 => visitFields env tag acc1 ro parent incl rest
end

/-! ## The entry point -/

/-- Hash(v, nil): default options, so the crc64 accumulator freshly reset to
state 0 and the tag name "hash"; the digest is the final state (Sum64). -/
def Hash (env : HookEnv) (v : GoVal) : Except Failure Nat :=
  visit env "hash" 0 false v none

/-- Hash with a caller-chosen TagName and otherwise default options. -/
def HashT (env : HookEnv) (tagName : String) (v : GoVal) : Except Failure Nat :=
  visit env tagName 0 false v none

/-- The (uint64, error) pair the Go function returns: the digest on success,
and the zero digest together with the failure otherwise. -/
def HashPair (env : HookEnv) (v : GoVal) : Nat × Option Failure :=
  match Hash env v with
  | .ok d => (d, none)
  | .error f => (0, some f)

/-! ## Caller options

HashOptions carries a caller-supplied hasher and tag name; Hash fills in
defaults by assigning through the caller's pointer (hashstructure.go lines
53 to 62).  The model covers hashers with CRC-64/ECMA semantics; a supplied
hasher is distinguished from the default one the code installs so that the
effect of the defaulting assignments on the caller's record is observable. -/

inductive HasherRef where
  | defaultCRC
  | supplied (id : Nat)
deriving DecidableEq

structure HashOptions where
  Hasher : Option HasherRef
  TagName : String
deriving DecidableEq

/-- The defaulting performed at the top of Hash on a non-nil options record:
a nil Hasher becomes a fresh CRC-64(ECMA) hasher, an empty TagName becomes
the string hash.  These assignments go through the caller's pointer. -/
def applyDefaults (o : HashOptions) : HashOptions :=
  let o1 := if o.Hasher = none then { o with Hasher := some .defaultCRC } else o
  if o1.TagName = "" then { o1 with TagName := "hash" } else o1

/-- The full Go call Hash(v, opts): the (digest, error) pair, together with
the state of the caller's options record after the call (none when the
caller passed nil, in which case the code allocates its own record). -/
def HashWithOptions (env : HookEnv) (v : GoVal) (opts : Option HashOptions) :
    (Nat × Option Failure) × Option HashOptions :=
  let o := applyDefaults (match opts with | some o => o | none => ⟨none, ""⟩)
  ((match visit env o.TagName 0 false v none with
    | .ok d => (d, none)
    | .error f => (0, some f)),
   match opts with | some _ => some o | none => none)

/-! ## Bridges from ordinary lists, used to state theorems -/

def goList : List GoVal → GoList
  | [] => .nil
  | x :: r => .cons x (goList r)

def goEntries : List (GoVal × GoVal) → GoEntries
  | [] => .nil
  | (k, v) :: r => .cons k v (goEntries r)

/-- One struct field: name, tag list, exportedness, value. -/
structure SField where
  name : String
  tags : List (String × String)
  exported : Bool
  val : GoVal

def goFields : List SField → GoFields
  | [] => .nil
  | f :: r => .cons f.name f.tags f.exported f.val (goFields r)

def goArray (xs : List GoVal) : GoVal := .arrayV (goList xs)

def goSlice (xs : List GoVal) : GoVal := .sliceV (goList xs)

def goMap (es : List (GoVal × GoVal)) : GoVal := .mapV (goEntries es)

def goStruct (fs : List SField) : GoVal := .structV (goFields fs)

/-! ## Helpers for reasoning about the walk -/

/-- Sequencing of fallible steps, the shape of every loop in the walker. -/
def andThenE {α β} (r : Except Failure α) (f : α → Except Failure β) : Except Failure β :=
  match r with
  | .ok a => f a
  | .error e => .error e

/-- Two results that succeed in exactly the same cases, with the same value.
Failures may differ (when a permutation changes which entry fails first the
error value can change, but success and the digest cannot). -/
def OkIff {α} (r s : Except Failure α) : Prop := ∀ a, r = .ok a ↔ s = .ok a

/-- What processing one retained-or-skipped map entry yields before the fold:
a failure, a skip (hook said no), or the xor of the two sub-digests.  This
packages the entry body of the map loop; it depends on neither the running
total nor the read-only flag. -/
def entryOutcome (env : HookEnv)
    (inclM : Option (String → GoVal → GoVal → Except String Bool))
    (fieldName : String) (k v : GoVal) : Except Failure (Option Nat) :=
  match inclMapApp inclM fieldName k v with
  | .error m => .error (.goError m)
  | .ok false => .ok none
  | .ok true =>
    match visit env "hash" 0 false k none with
    | .error f => .error f
    | .ok kh =>
      match visit env "hash" 0 false v none with
      | .error f => .error f
      | .ok vh => .ok (some (kh ^^^ vh))

/-- What processing one struct field does to the accumulator: unchanged when
the field is skipped (blank name, ignore annotation, or hook refusal), the
hook's error on hook failure, and otherwise the recursive visit of the field
value in the field's context.  This packages the body of the struct loop. -/
def fieldStep (env : HookEnv) (tag : String) (ro : Bool) (parent : GoVal)
    (incl : Option (String → GoVal → Except String Bool)) (f : SField) (acc : Nat) :
    Except Failure Nat :=
  if f.name = "_" then .ok acc
  else if tagGet f.tags tag = "ignore" then .ok acc
  else
    match inclApp incl f.name f.val with
    | .error m => .error (.goError m)
    | .ok false => .ok acc
    | .ok true =>
      visit env tag acc (ro || !f.exported) f.val
        (some ⟨tagGet f.tags tag = "set", some parent, f.name⟩)

/- structFree: values whose traversal can never reach a composite record,
so the Includable capability is never queried below them. -/
mutual
def structFree : GoVal → Bool
  | .structV _ => false
  | .ptrV x => structFree x
  | .interfaceV x => structFree x
  | .arrayV xs => structFreeL xs
  | .sliceV xs => structFreeL xs
  | .mapV es => structFreeE es
  | _ => true

def structFreeL : GoList → Bool
  | .nil => true
  | .cons x r => structFree x && structFreeL r

def structFreeE : GoEntries → Bool
  | .nil => true
  | .cons k v r => structFree k && structFree v && structFreeE r
end

/-- n layers of reference or boxed-dynamic wrapping around a value:
true adds a pointer, false adds an interface box. -/
def wrapRefs : List Bool → GoVal → GoVal
  | [], v => v
  | true :: r, v => .ptrV (wrapRefs r v)
  | false :: r, v => .interfaceV (wrapRefs r v)

/-- An environment in which every record exposes the same Includable hook
and the same IncludableMap hook (or none): capability decided by behavior
that depends only on the hook arguments, as the specification describes. -/
def constEnv (hi : Option (String → GoVal → Except String Bool))
    (hm : Option (String → GoVal → GoVal → Except String Bool)) : HookEnv :=
  ⟨fun _ => hi, fun _ => hm⟩

/-- Two optional Includable hooks that agree on every field name other
than n; at n they may behave arbitrarily differently. -/
def HookAgreeExcept (n : String)
    (h1 h2 : Option (String → GoVal → Except String Bool)) : Prop :=
  (h1 = none ∧ h2 = none) ∨
  ∃ f g, h1 = some f ∧ h2 = some g ∧ ∀ m v, m ≠ n → f m v = g m v

/-! ## Enumeration-order equivalence

Go exposes no enumeration order on a map value: two runs may see the same
map in different orders.  In the embedding the order is the entry-list
order, so order-indifference becomes invariance of the walk under this
relation: the congruence closure of permuting one map's entry list.  Step
is one rewrite; EnumEquiv is its reflexive-transitive closure. -/

inductive Step : GoVal → GoVal → Prop where
  | mapPerm (es1 es2 : List (GoVal × GoVal)) (h : es1.Perm es2) :
      Step (goMap es1) (goMap es2)
  | ptrC {x y : GoVal} : Step x y → Step (.ptrV x) (.ptrV y)
  | ifaceC {x y : GoVal} : Step x y → Step (.interfaceV x) (.interfaceV y)
  | arrayC (pre post : List GoVal) {x y : GoVal} : Step x y →
      Step (goArray (pre ++ x :: post)) (goArray (pre ++ y :: post))
  | sliceC (pre post : List GoVal) {x y : GoVal} : Step x y →
      Step (goSlice (pre ++ x :: post)) (goSlice (pre ++ y :: post))
  | fieldC (pre post : List SField) (n : String) (tg : List (String × String))
      (e : Bool) {x y : GoVal} : Step x y →
      Step (goStruct (pre ++ ⟨n, tg, e, x⟩ :: post)) (goStruct (pre ++ ⟨n, tg, e, y⟩ :: post))
  | keyC (pre post : List (GoVal × GoVal)) (v : GoVal) {x y : GoVal} : Step x y →
      Step (goMap (pre ++ (x, v) :: post)) (goMap (pre ++ (y, v) :: post))
  | valC (pre post : List (GoVal × GoVal)) (k : GoVal) {x y : GoVal} : Step x y →
      Step (goMap (pre ++ (k, x) :: post)) (goMap (pre ++ (k, y) :: post))

/-- Same value up to the enumeration order of the maps inside it. -/
def EnumEquiv : GoVal → GoVal → Prop := Relation.ReflTransGen Step

/-- Hook environments that cannot observe enumeration order, which is every
environment expressible in Go: the capability query and the hook results
are invariant under enumeration-order equivalence of their value inputs. -/
def EnvRespects (env : HookEnv) : Prop :=
  (∀ p q, EnumEquiv p q → env.incl p = env.incl q) ∧
  (∀ p q, EnumEquiv p q → env.inclMap p = env.inclMap q) ∧
  (∀ p h, env.incl p = some h → ∀ n a b, EnumEquiv a b → h n a = h n b) ∧
  (∀ p h, env.inclMap p = some h → ∀ n a b c e, EnumEquiv a b → EnumEquiv c e →
    h n a c = h n b e)

/-! ## Traversal reaching an unsupported kind

A value of func or chan kind sitting at a position the walk visits: under
wrappers, as an element of an array or slice, as a map key or value, or as
the value of a visited struct field (named, not annotated ignore under the
walker's tag).  The walk can never succeed on such a value. -/

/-- The error messages the default case of the walker can produce in the
modeled value space: fmt.Errorf("unknown kind to hash: %s", k). -/
def IsUnknownKindMsg (m : String) : Prop :=
  m = "unknown kind to hash: func" ∨ m = "unknown kind to hash: chan"

inductive ReachesUnsup : String → GoVal → Prop where
  | func (tag : String) : ReachesUnsup tag .funcV
  | chan (tag : String) : ReachesUnsup tag .chanV
  | ptr {tag : String} {x : GoVal} : ReachesUnsup tag x → ReachesUnsup tag (.ptrV x)
  | iface {tag : String} {x : GoVal} : ReachesUnsup tag x → ReachesUnsup tag (.interfaceV x)
  | arrayElem {tag : String} (pre post : List GoVal) {x : GoVal} : ReachesUnsup tag x →
      ReachesUnsup tag (goArray (pre ++ x :: post))
  | sliceElem {tag : String} (pre post : List GoVal) {x : GoVal} : ReachesUnsup tag x →
      ReachesUnsup "hash" x → ReachesUnsup tag (goSlice (pre ++ x :: post))
  | mapKey {tag : String} (pre post : List (GoVal × GoVal)) {k : GoVal} (v : GoVal) :
      ReachesUnsup "hash" k → ReachesUnsup tag (goMap (pre ++ (k, v) :: post))
  | mapVal {tag : String} (pre post : List (GoVal × GoVal)) (k : GoVal) {v : GoVal} :
      ReachesUnsup "hash" v → ReachesUnsup tag (goMap (pre ++ (k, v) :: post))
  | field {tag : String} (pre post : List SField) (n : String) (tg : List (String × String))
      (e : Bool) {x : GoVal} : n ≠ "_" → tagGet tg tag ≠ "ignore" →
      ReachesUnsup tag x → ReachesUnsup tag (goStruct (pre ++ ⟨n, tg, e, x⟩ :: post))

end Hashstructure

deriving instance DecidableEq for Except

namespace Hashstructure

/-! ## Basic facts about sequencing and success-equivalence -/

theorem xor_right_comm (a b c : Nat) : a ^^^ b ^^^ c = a ^^^ c ^^^ b := by
  rw [Nat.xor_assoc, Nat.xor_comm b c, ← Nat.xor_assoc]

theorem andThenE_eq_ok {α β} (r : Except Failure α) (f : α → Except Failure β) (b : β) :
    andThenE r f = .ok b ↔ ∃ a, r = .ok a ∧ f a = .ok b := by
  cases r <;> simp [andThenE]

theorem OkIff.refl {α} {r : Except Failure α} : OkIff r r := fun _ => Iff.rfl

theorem OkIff.trans {α} {r s t : Except Failure α} (h1 : OkIff r s) (h2 : OkIff s t) :
    OkIff r t := fun a => (h1 a).trans (h2 a)

theorem OkIff.of_eq {α} {r s : Except Failure α} (h : r = s) : OkIff r s := by
  subst h; exact OkIff.refl

theorem okIff_of_errors {α} {r s : Except Failure α}
    (hr : ∀ a, r ≠ .ok a) (hs : ∀ a, s ≠ .ok a) : OkIff r s :=
  fun a => iff_of_false (hr a) (hs a)

theorem okIff_andThenE {α β} {r s : Except Failure α} {f g : α → Except Failure β}
    (h1 : OkIff r s) (h2 : ∀ a, OkIff (f a) (g a)) :
    OkIff (andThenE r f) (andThenE s g) := by
  intro b
  rw [andThenE_eq_ok, andThenE_eq_ok]
  constructor
  · rintro ⟨a, ha, hb⟩; exact ⟨a, (h1 a).mp ha, (h2 a b).mp hb⟩
  · rintro ⟨a, ha, hb⟩; exact ⟨a, (h1 a).mpr ha, (h2 a b).mpr hb⟩

/-! ## Unfolding the walker case by case -/

theorem visit_ptrV (env : HookEnv) (tag : String) (acc : Nat) (ro : Bool) (x : GoVal)
    (vopts : Option VisitOpts) :
    visit env tag acc ro (.ptrV x) vopts = visit env tag acc ro x vopts := by
  simp [visit]

theorem visit_interfaceV (env : HookEnv) (tag : String) (acc : Nat) (ro : Bool) (x : GoVal)
    (vopts : Option VisitOpts) :
    visit env tag acc ro (.interfaceV x) vopts = visit env tag acc ro x vopts := by
  simp [visit]

theorem visit_arrayV (env : HookEnv) (tag : String) (acc : Nat) (ro : Bool) (xs : GoList)
    (vopts : Option VisitOpts) :
    visit env tag acc ro (.arrayV xs) vopts = visitSeq env tag acc ro xs := by
  simp [visit]

theorem visit_sliceV (env : HookEnv) (tag : String) (acc : Nat) (ro : Bool) (xs : GoList)
    (vopts : Option VisitOpts) :
    visit env tag acc ro (.sliceV xs) vopts =
      if optsSet vopts then
        andThenE (visitSet env ro xs 0) (fun h => .ok (crc64Write acc (leBytes 8 h)))
      else visitSeq env tag acc ro xs := by
  cases hs : optsSet vopts
  · simp [visit, hs]
  · cases h : visitSet env ro xs 0 <;> simp [visit, hs, h, andThenE]

theorem visit_mapV (env : HookEnv) (tag : String) (acc : Nat) (ro : Bool) (es : GoEntries)
    (vopts : Option VisitOpts) :
    visit env tag acc ro (.mapV es) vopts =
      andThenE (visitEntries env ro (optsParentHook env vopts) (optsField vopts) es 0)
        (fun h => .ok (crc64Write acc (leBytes 8 h))) := by
  cases h : visitEntries env ro (optsParentHook env vopts) (optsField vopts) es 0 <;>
    simp [visit, h, andThenE]

theorem visit_structV (env : HookEnv) (tag : String) (acc : Nat) (ro : Bool) (fs : GoFields)
    (vopts : Option VisitOpts) :
    visit env tag acc ro (.structV fs) vopts =
      if ro then .error .roPanic
      else visitFields env tag acc ro (.structV fs) (env.incl (.structV fs)) fs := by
  simp [visit]

/-! ## The loops, over ordinary lists -/

theorem visitSeq_nil (env : HookEnv) (tag : String) (acc : Nat) (ro : Bool) :
    visitSeq env tag acc ro (goList []) = .ok acc := by
  simp [goList, visitSeq]

theorem visitSeq_cons (env : HookEnv) (tag : String) (acc : Nat) (ro : Bool) (x : GoVal)
    (l : List GoVal) :
    visitSeq env tag acc ro (goList (x :: l)) =
      andThenE (visit env tag acc ro x none) (fun a => visitSeq env tag a ro (goList l)) := by
  cases h : visit env tag acc ro x none <;> simp [goList, visitSeq, h, andThenE]

theorem visitSeq_append (env : HookEnv) (tag : String) (ro : Bool) (l1 l2 : List GoVal) :
    ∀ acc, visitSeq env tag acc ro (goList (l1 ++ l2)) =
      andThenE (visitSeq env tag acc ro (goList l1)) (fun a => visitSeq env tag a ro (goList l2)) := by
  induction l1 with
  | nil => intro acc; simp [visitSeq_nil, andThenE]
  | cons x r ih =>
    intro acc
    rw [List.cons_append, visitSeq_cons, visitSeq_cons]
    cases h : visit env tag acc ro x none <;> simp [andThenE, h, ih]

theorem visitSet_nil (env : HookEnv) (ro : Bool) (h : Nat) :
    visitSet env ro (goList []) h = .ok h := by
  simp [goList, visitSet]

theorem visitSet_cons (env : HookEnv) (ro : Bool) (x : GoVal) (l : List GoVal) (h : Nat) :
    visitSet env ro (goList (x :: l)) h =
      if ro then .error .roPanic
      else andThenE (visit env "hash" 0 false x none)
        (fun hc => visitSet env ro (goList l) (h ^^^ hc)) := by
  cases ro
  · cases hx : visit env "hash" 0 false x none <;> simp [goList, visitSet, hx, andThenE]
  · simp [goList, visitSet]

theorem visitSet_append (env : HookEnv) (ro : Bool) (l1 l2 : List GoVal) :
    ∀ h, visitSet env ro (goList (l1 ++ l2)) h =
      andThenE (visitSet env ro (goList l1) h) (fun a => visitSet env ro (goList l2) a) := by
  induction l1 with
  | nil => intro h; simp [visitSet_nil, andThenE]
  | cons x r ih =>
    intro h
    rw [List.cons_append, visitSet_cons, visitSet_cons]
    cases ro
    · simp only [if_neg Bool.false_ne_true]
      cases hx : visit env "hash" 0 false x none <;> simp [andThenE, hx, ih]
    · simp [andThenE]

theorem visitEntries_nil (env : HookEnv) (ro : Bool)
    (im : Option (String → GoVal → GoVal → Except String Bool)) (fn : String) (h : Nat) :
    visitEntries env ro im fn (goEntries []) h = .ok h := by
  simp [goEntries, visitEntries]

theorem visitEntries_cons (env : HookEnv) (ro : Bool)
    (im : Option (String → GoVal → GoVal → Except String Bool)) (fn : String)
    (k v : GoVal) (l : List (GoVal × GoVal)) (h : Nat) :
    visitEntries env ro im fn (goEntries ((k, v) :: l)) h =
      if ro then .error .roPanic
      else andThenE (entryOutcome env im fn k v)
        (fun o => visitEntries env ro im fn (goEntries l)
          (match o with | none => h | some d => h ^^^ d)) := by
  cases ro
  · show visitEntries env false im fn (.cons k v (goEntries l)) h = _
    simp only [visitEntries, entryOutcome, Bool.false_eq_true, if_false, if_neg]
    cases hh : inclMapApp im fn k v with
    | error m => simp [andThenE]
    | ok b =>
      cases b
      · simp [andThenE]
      · cases hk : visit env "hash" 0 false k none with
        | error f => simp [hk, andThenE]
        | ok kh =>
          cases hv : visit env "hash" 0 false v none with
          | error f => simp [hk, hv, andThenE]
          | ok vh => simp [hk, hv, andThenE, Nat.xor_assoc]
  · show visitEntries env true im fn (.cons k v (goEntries l)) h = _
    simp [visitEntries]

theorem visitEntries_append (env : HookEnv) (ro : Bool)
    (im : Option (String → GoVal → GoVal → Except String Bool)) (fn : String)
    (l1 l2 : List (GoVal × GoVal)) :
    ∀ h, visitEntries env ro im fn (goEntries (l1 ++ l2)) h =
      andThenE (visitEntries env ro im fn (goEntries l1) h)
        (fun a => visitEntries env ro im fn (goEntries l2) a) := by
  induction l1 with
  | nil => intro h; simp [visitEntries_nil, andThenE]
  | cons x r ih =>
    intro h
    obtain ⟨k, v⟩ := x
    rw [List.cons_append, visitEntries_cons, visitEntries_cons]
    cases ro
    · simp only [if_neg Bool.false_ne_true]
      cases ho : entryOutcome env im fn k v <;> simp [andThenE, ih]
    · simp [andThenE]

theorem visitFields_nil (env : HookEnv) (tag : String) (acc : Nat) (ro : Bool)
    (parent : GoVal) (incl : Option (String → GoVal → Except String Bool)) :
    visitFields env tag acc ro parent incl (goFields []) = .ok acc := by
  simp [goFields, visitFields]

theorem visitFields_cons (env : HookEnv) (tag : String) (acc : Nat) (ro : Bool)
    (parent : GoVal) (incl : Option (String → GoVal → Except String Bool))
    (f : SField) (l : List SField) :
    visitFields env tag acc ro parent incl (goFields (f :: l)) =
      andThenE (fieldStep env tag ro parent incl f acc)
        (fun a => visitFields env tag a ro parent incl (goFields l)) := by
  show visitFields env tag acc ro parent incl (.cons f.name f.tags f.exported f.val (goFields l)) = _
  unfold fieldStep
  by_cases h1 : f.name = "_"
  · simp [visitFields, h1, andThenE]
  · by_cases h2 : tagGet f.tags tag = "ignore"
    · simp [visitFields, h1, h2, andThenE]
    · simp only [visitFields, h1, h2, if_neg, if_false]
      cases hh : inclApp incl f.name f.val with
      | error m => simp [h1, h2, hh, andThenE]
      | ok b =>
        cases b
        · simp [h1, h2, hh, andThenE]
        · cases hv : visit env tag acc (ro || !f.exported) f.val
              (some ⟨tagGet f.tags tag = "set", some parent, f.name⟩) with
          | error g => simp [h1, h2, hh, hv, andThenE]
          | ok a => simp [h1, h2, hh, hv, andThenE]

theorem visitFields_append (env : HookEnv) (tag : String) (ro : Bool) (parent : GoVal)
    (incl : Option (String → GoVal → Except String Bool)) (l1 l2 : List SField) :
    ∀ acc, visitFields env tag acc ro parent incl (goFields (l1 ++ l2)) =
      andThenE (visitFields env tag acc ro parent incl (goFields l1))
        (fun a => visitFields env tag a ro parent incl (goFields l2)) := by
  induction l1 with
  | nil => intro acc; simp [visitFields_nil, andThenE]
  | cons f r ih =>
    intro acc
    rw [List.cons_append, visitFields_cons, visitFields_cons]
    cases hf : fieldStep env tag ro parent incl f acc <;> simp [andThenE, ih]

/-! ## The context of a visit matters only through the set flag and the
owning record's IncludableMap capability -/

theorem optsParentHook_some (env : HookEnv) (s : Bool) (p : GoVal) (n : String) :
    optsParentHook env (some ⟨s, some p, n⟩) = env.inclMap p := rfl

theorem visit_parent_congr (env : HookEnv) (p1 p2 : GoVal)
    (hp : env.inclMap p1 = env.inclMap p2) (tag : String) (acc : Nat) (ro : Bool)
    (s : Bool) (n : String) :
    ∀ v : GoVal, visit env tag acc ro v (some ⟨s, some p1, n⟩)
      = visit env tag acc ro v (some ⟨s, some p2, n⟩)
  | .intV _ => by simp [visit]
  | .int8V _ => by simp [visit]
  | .int16V _ => by simp [visit]
  | .int32V _ => by simp [visit]
  | .int64V _ => by simp [visit]
  | .uintV _ => by simp [visit]
  | .uint8V _ => by simp [visit]
  | .uint16V _ => by simp [visit]
  | .uint32V _ => by simp [visit]
  | .uint64V _ => by simp [visit]
  | .boolV _ => by simp [visit]
  | .stringV _ => by simp [visit]
  | .funcV => by simp [visit]
  | .chanV => by simp [visit]
  | .ptrNil => by simp [visit]
  | .interfaceNil => by simp [visit]
  | .arrayV xs => by rw [visit_arrayV, visit_arrayV]
  | .sliceV xs => by rw [visit_sliceV, visit_sliceV]; simp [optsSet]
  | .mapV es => by rw [visit_mapV, visit_mapV]; simp [optsParentHook_some, optsField, hp]
  | .structV fs => by rw [visit_structV, visit_structV]
  | .ptrV x => by
    rw [visit_ptrV, visit_ptrV]
    exact visit_parent_congr env p1 p2 hp tag acc ro s n x
  | .interfaceV x => by
    rw [visit_interfaceV, visit_interfaceV]
    exact visit_parent_congr env p1 p2 hp tag acc ro s n x

theorem fieldStep_parent_congr (env : HookEnv) (p1 p2 : GoVal)
    (hp : env.inclMap p1 = env.inclMap p2) (tag : String) (ro : Bool)
    (incl : Option (String → GoVal → Except String Bool)) (f : SField) (acc : Nat) :
    fieldStep env tag ro p1 incl f acc = fieldStep env tag ro p2 incl f acc := by
  unfold fieldStep
  by_cases h1 : f.name = "_"
  · simp [h1]
  · by_cases h2 : tagGet f.tags tag = "ignore"
    · simp [h1, h2]
    · simp only [h1, h2, if_neg, if_false]
      cases hh : inclApp incl f.name f.val with
      | error m => simp
      | ok b =>
        cases b
        · simp
        · simpa using visit_parent_congr env p1 p2 hp tag acc (ro || !f.exported)
            (tagGet f.tags tag = "set") f.name f.val

theorem visitFields_parent_congr (env : HookEnv) (p1 p2 : GoVal)
    (hp : env.inclMap p1 = env.inclMap p2) (tag : String) (ro : Bool)
    (incl : Option (String → GoVal → Except String Bool)) (l : List SField) :
    ∀ acc, visitFields env tag acc ro p1 incl (goFields l)
      = visitFields env tag acc ro p2 incl (goFields l) := by
  induction l with
  | nil => intro acc; simp [visitFields_nil]
  | cons f r ih =>
    intro acc
    rw [visitFields_cons, visitFields_cons, fieldStep_parent_congr env p1 p2 hp]
    cases hf : fieldStep env tag ro p2 incl f acc <;> simp [andThenE, ih]

/-! ## Permuting map entries preserves success and the digest -/

theorem visitEntries_perm (env : HookEnv) (ro : Bool)
    (im : Option (String → GoVal → GoVal → Except String Bool)) (fn : String)
    {es1 es2 : List (GoVal × GoVal)} (hp : es1.Perm es2) :
    ∀ h, OkIff (visitEntries env ro im fn (goEntries es1) h)
      (visitEntries env ro im fn (goEntries es2) h) := by
  induction hp with
  | nil => intro h; exact OkIff.refl
  | cons x ht ih =>
    intro h
    obtain ⟨k, v⟩ := x
    rw [visitEntries_cons, visitEntries_cons]
    cases ro
    · simp only [if_neg Bool.false_ne_true]
      refine okIff_andThenE OkIff.refl fun o => ?_
      cases o <;> exact ih _
    · simp only [if_pos]; exact OkIff.refl
  | swap x y l =>
    intro h
    obtain ⟨k1, v1⟩ := x
    obtain ⟨k2, v2⟩ := y
    rw [visitEntries_cons, visitEntries_cons]
    cases ro
    · simp only [if_neg Bool.false_ne_true]
      cases h2 : entryOutcome env im fn k2 v2 with
      | error f2 =>
        cases h1 : entryOutcome env im fn k1 v1 with
        | error f1 =>
          exact okIff_of_errors (by simp [andThenE]) (by simp [andThenE])
        | ok o1 =>
          refine okIff_of_errors (by simp [andThenE]) fun a => ?_
          simp only [andThenE]
          rw [visitEntries_cons]
          simp [h2, andThenE]
      | ok o2 =>
        cases h1 : entryOutcome env im fn k1 v1 with
        | error f1 =>
          refine okIff_of_errors (fun a => ?_) (by simp [andThenE])
          simp only [andThenE]
          rw [visitEntries_cons]
          simp [h1, andThenE]
        | ok o1 =>
          simp only [andThenE]
          rw [visitEntries_cons, visitEntries_cons]
          simp only [if_neg Bool.false_ne_true, h1, h2, andThenE]
          cases o1 <;> cases o2 <;> exact OkIff.of_eq (by simp [xor_right_comm])
    · simp only [if_pos]; exact OkIff.refl
  | trans _ _ ih1 ih2 => intro h; exact (ih1 h).trans (ih2 h)

theorem envRespects_noHooks : EnvRespects noHooks := by
  refine ⟨fun p q _ => rfl, fun p q _ => rfl, fun p h hph => ?_, fun p h hph => ?_⟩ <;>
    simp [noHooks] at hph

/-! ## The walk respects enumeration-order equivalence -/

theorem entryOutcome_hook_eq (env : HookEnv) (hr : EnvRespects env)
    (vopts : Option VisitOpts) {k1 v1 k2 v2 : GoVal}
    (hk : EnumEquiv k1 k2) (hv : EnumEquiv v1 v2) :
    inclMapApp (optsParentHook env vopts) (optsField vopts) k1 v1
      = inclMapApp (optsParentHook env vopts) (optsField vopts) k2 v2 := by
  cases him : optsParentHook env vopts with
  | none => rfl
  | some f =>
    cases vopts with
    | none => simp [optsParentHook] at him
    | some o =>
      cases hpar : o.parent with
      | none => simp [optsParentHook, hpar] at him
      | some p =>
        simp only [optsParentHook, hpar] at him
        exact hr.2.2.2 p f him (optsField (some o)) k1 k2 v1 v2 hk hv

theorem entryOutcome_okIff {env : HookEnv}
    {im : Option (String → GoVal → GoVal → Except String Bool)} {fn : String}
    {k1 v1 k2 v2 : GoVal}
    (hhook : inclMapApp im fn k1 v1 = inclMapApp im fn k2 v2)
    (hk : OkIff (visit env "hash" 0 false k1 none) (visit env "hash" 0 false k2 none))
    (hv : OkIff (visit env "hash" 0 false v1 none) (visit env "hash" 0 false v2 none)) :
    OkIff (entryOutcome env im fn k1 v1) (entryOutcome env im fn k2 v2) := by
  unfold entryOutcome
  rw [hhook]
  cases inclMapApp im fn k2 v2 with
  | error m => exact OkIff.refl
  | ok b =>
    cases b
    · exact OkIff.refl
    · cases hk1 : visit env "hash" 0 false k1 none with
      | error f =>
        cases hk2 : visit env "hash" 0 false k2 none with
        | error g => exact okIff_of_errors (by simp) (by simp)
        | ok kh => exact absurd ((hk kh).mpr hk2) (by simp [hk1])
      | ok kh =>
        rw [(hk kh).mp hk1]
        cases hv1 : visit env "hash" 0 false v1 none with
        | error f =>
          cases hv2 : visit env "hash" 0 false v2 none with
          | error g => exact okIff_of_errors (by simp) (by simp)
          | ok vh => exact absurd ((hv vh).mpr hv2) (by simp [hv1])
        | ok vh =>
          rw [(hv vh).mp hv1]
          exact OkIff.refl

theorem step_okIff {v1 v2 : GoVal} (hs : Step v1 v2) :
    ∀ env, EnvRespects env → ∀ tag acc ro vopts,
      OkIff (visit env tag acc ro v1 vopts) (visit env tag acc ro v2 vopts) := by
  induction hs with
  | mapPerm es1 es2 hperm =>
    intro env hr tag acc ro vopts
    simp only [goMap]
    rw [visit_mapV, visit_mapV]
    exact okIff_andThenE (visitEntries_perm env ro _ _ hperm 0) fun a => OkIff.refl
  | @ptrC x y hsub ih =>
    intro env hr tag acc ro vopts
    rw [visit_ptrV, visit_ptrV]
    exact ih env hr tag acc ro vopts
  | @ifaceC x y hsub ih =>
    intro env hr tag acc ro vopts
    rw [visit_interfaceV, visit_interfaceV]
    exact ih env hr tag acc ro vopts
  | @arrayC pre post x y hsub ih =>
    intro env hr tag acc ro vopts
    simp only [goArray]
    rw [visit_arrayV, visit_arrayV, visitSeq_append, visitSeq_append]
    refine okIff_andThenE OkIff.refl fun a => ?_
    rw [visitSeq_cons, visitSeq_cons]
    exact okIff_andThenE (ih env hr tag a ro none) fun b => OkIff.refl
  | @sliceC pre post x y hsub ih =>
    intro env hr tag acc ro vopts
    simp only [goSlice]
    rw [visit_sliceV, visit_sliceV]
    cases hset : optsSet vopts
    · simp only [if_neg Bool.false_ne_true]
      rw [visitSeq_append, visitSeq_append]
      refine okIff_andThenE OkIff.refl fun a => ?_
      rw [visitSeq_cons, visitSeq_cons]
      exact okIff_andThenE (ih env hr tag a ro none) fun b => OkIff.refl
    · simp only [if_pos]
      refine okIff_andThenE ?_ fun a => OkIff.refl
      rw [visitSet_append, visitSet_append]
      refine okIff_andThenE OkIff.refl fun a => ?_
      rw [visitSet_cons, visitSet_cons]
      cases ro
      · simp only [if_neg Bool.false_ne_true]
        exact okIff_andThenE (ih env hr "hash" 0 false none) fun b => OkIff.refl
      · exact OkIff.refl
  | @keyC pre post v x y hsub ih =>
    intro env hr tag acc ro vopts
    simp only [goMap]
    rw [visit_mapV, visit_mapV]
    refine okIff_andThenE ?_ fun a => OkIff.refl
    rw [visitEntries_append, visitEntries_append]
    refine okIff_andThenE OkIff.refl fun h => ?_
    rw [visitEntries_cons, visitEntries_cons]
    cases ro
    · simp only [if_neg Bool.false_ne_true]
      refine okIff_andThenE ?_ fun o => OkIff.refl
      exact entryOutcome_okIff
        (entryOutcome_hook_eq env hr vopts (Relation.ReflTransGen.single hsub)
          Relation.ReflTransGen.refl)
        (ih env hr "hash" 0 false none) OkIff.refl
    · exact OkIff.refl
  | @valC pre post k x y hsub ih =>
    intro env hr tag acc ro vopts
    simp only [goMap]
    rw [visit_mapV, visit_mapV]
    refine okIff_andThenE ?_ fun a => OkIff.refl
    rw [visitEntries_append, visitEntries_append]
    refine okIff_andThenE OkIff.refl fun h => ?_
    rw [visitEntries_cons, visitEntries_cons]
    cases ro
    · simp only [if_neg Bool.false_ne_true]
      refine okIff_andThenE ?_ fun o => OkIff.refl
      exact entryOutcome_okIff
        (entryOutcome_hook_eq env hr vopts Relation.ReflTransGen.refl
          (Relation.ReflTransGen.single hsub))
        OkIff.refl (ih env hr "hash" 0 false none)
    · exact OkIff.refl
  | @fieldC pre post n tg e x y hsub ih =>
    intro env hr tag acc ro vopts
    have hpp : EnumEquiv (goStruct (pre ++ ⟨n, tg, e, x⟩ :: post))
        (goStruct (pre ++ ⟨n, tg, e, y⟩ :: post)) :=
      Relation.ReflTransGen.single (Step.fieldC pre post n tg e hsub)
    have hincl : env.incl (goStruct (pre ++ ⟨n, tg, e, x⟩ :: post))
        = env.incl (goStruct (pre ++ ⟨n, tg, e, y⟩ :: post)) := hr.1 _ _ hpp
    have hinclM : env.inclMap (goStruct (pre ++ ⟨n, tg, e, x⟩ :: post))
        = env.inclMap (goStruct (pre ++ ⟨n, tg, e, y⟩ :: post)) := hr.2.1 _ _ hpp
    simp only [goStruct] at hincl hinclM ⊢
    rw [visit_structV, visit_structV]
    cases ro
    · simp only [if_neg Bool.false_ne_true]
      rw [visitFields_append, visitFields_append, hincl,
        visitFields_parent_congr env _ _ hinclM]
      refine okIff_andThenE OkIff.refl fun a => ?_
      rw [visitFields_cons, visitFields_cons,
        fieldStep_parent_congr env _ _ hinclM]
      refine okIff_andThenE ?_ fun b =>
        OkIff.of_eq (visitFields_parent_congr env _ _ hinclM tag false _ post b)
      unfold fieldStep
      by_cases h1 : n = "_"
      · simp only [if_pos h1]; exact OkIff.refl
      · simp only [if_neg h1]
        by_cases h2 : tagGet tg tag = "ignore"
        · simp only [if_pos h2]; exact OkIff.refl
        · simp only [if_neg h2]
          have hookeq :
              inclApp (env.incl (.structV (goFields (pre ++ ⟨n, tg, e, y⟩ :: post)))) n x
              = inclApp (env.incl (.structV (goFields (pre ++ ⟨n, tg, e, y⟩ :: post)))) n y := by
            cases hg : env.incl (.structV (goFields (pre ++ ⟨n, tg, e, y⟩ :: post))) with
            | none => rfl
            | some g =>
              exact hr.2.2.1 _ g hg n x y (Relation.ReflTransGen.single hsub)
          rw [hookeq]
          cases inclApp (env.incl (.structV (goFields (pre ++ ⟨n, tg, e, y⟩ :: post)))) n y with
          | error m => exact OkIff.refl
          | ok b =>
            cases b
            · exact OkIff.refl
            · exact ih env hr tag a (false || !e)
                (some ⟨tagGet tg tag = "set",
                  some (.structV (goFields (pre ++ ⟨n, tg, e, y⟩ :: post))), n⟩)
    · simp only [if_pos]; exact OkIff.refl

theorem enumEquiv_okIff {v1 v2 : GoVal} (he : EnumEquiv v1 v2)
    (env : HookEnv) (hr : EnvRespects env) (tag : String) (acc : Nat) (ro : Bool)
    (vopts : Option VisitOpts) :
    OkIff (visit env tag acc ro v1 vopts) (visit env tag acc ro v2 vopts) := by
  induction he with
  | refl => exact OkIff.refl
  | tail _ hstep ih => exact ih.trans (step_okIff hstep env hr tag acc ro vopts)

/-! ## Every error the walker produces without hooks is an unknown-kind error -/

theorem andThenE_eq_error {α β} (r : Except Failure α) (f : α → Except Failure β)
    (e : Failure) :
    andThenE r f = .error e ↔ r = .error e ∨ ∃ a, r = .ok a ∧ f a = .error e := by
  cases r <;> simp [andThenE]

theorem optsParentHook_noHooks (vopts : Option VisitOpts) :
    optsParentHook noHooks vopts = none := by
  cases vopts with
  | none => rfl
  | some o => cases h : o.parent <;> simp [optsParentHook, h, noHooks]

theorem entryOutcome_none (env : HookEnv) (fn : String) (k v : GoVal) :
    entryOutcome env none fn k v =
      andThenE (visit env "hash" 0 false k none) (fun kh =>
        andThenE (visit env "hash" 0 false v none) (fun vh => .ok (some (kh ^^^ vh)))) := by
  unfold entryOutcome
  cases hk : visit env "hash" 0 false k none with
  | error f => simp [andThenE, inclMapApp]
  | ok kh => cases hv : visit env "hash" 0 false v none <;> simp [andThenE, inclMapApp]

mutual

theorem errMsgV : ∀ (v : GoVal) (tag : String) (acc : Nat) (ro : Bool)
    (vopts : Option VisitOpts) (m : String),
    visit noHooks tag acc ro v vopts = .error (.goError m) → IsUnknownKindMsg m
  | .intV _ => by intro tag acc ro vopts m h; simp [visit] at h
  | .int8V _ => by intro tag acc ro vopts m h; cases ro <;> simp [visit] at h
  | .int16V _ => by intro tag acc ro vopts m h; cases ro <;> simp [visit] at h
  | .int32V _ => by intro tag acc ro vopts m h; cases ro <;> simp [visit] at h
  | .int64V _ => by intro tag acc ro vopts m h; cases ro <;> simp [visit] at h
  | .uintV _ => by intro tag acc ro vopts m h; simp [visit] at h
  | .uint8V _ => by intro tag acc ro vopts m h; cases ro <;> simp [visit] at h
  | .uint16V _ => by intro tag acc ro vopts m h; cases ro <;> simp [visit] at h
  | .uint32V _ => by intro tag acc ro vopts m h; cases ro <;> simp [visit] at h
  | .uint64V _ => by intro tag acc ro vopts m h; cases ro <;> simp [visit] at h
  | .boolV _ => by intro tag acc ro vopts m h; simp [visit] at h
  | .stringV _ => by intro tag acc ro vopts m h; simp [visit] at h
  | .ptrNil => by intro tag acc ro vopts m h; simp [visit] at h
  | .interfaceNil => by intro tag acc ro vopts m h; simp [visit] at h
  | .funcV => by
    intro tag acc ro vopts m h
    simp [visit] at h
    exact Or.inl h.symm
  | .chanV => by
    intro tag acc ro vopts m h
    simp [visit] at h
    exact Or.inr h.symm
  | .ptrV x => by
    intro tag acc ro vopts m h
    rw [visit_ptrV] at h
    exact errMsgV x tag acc ro vopts m h
  | .interfaceV x => by
    intro tag acc ro vopts m h
    rw [visit_interfaceV] at h
    exact errMsgV x tag acc ro vopts m h
  | .arrayV xs => by
    intro tag acc ro vopts m h
    rw [visit_arrayV] at h
    exact errMsgL xs tag acc ro m h
  | .sliceV xs => by
    intro tag acc ro vopts m h
    rw [visit_sliceV] at h
    cases hset : optsSet vopts
    · rw [hset, if_neg Bool.false_ne_true] at h
      exact errMsgL xs tag acc ro m h
    · rw [hset, if_pos rfl] at h
      rcases (andThenE_eq_error _ _ _).mp h with h1 | ⟨a, _, h2⟩
      · exact errMsgS xs 0 ro m h1
      · simp at h2
  | .mapV es => by
    intro tag acc ro vopts m h
    rw [visit_mapV, optsParentHook_noHooks] at h
    rcases (andThenE_eq_error _ _ _).mp h with h1 | ⟨a, _, h2⟩
    · exact errMsgE es (optsField vopts) 0 ro m h1
    · simp at h2
  | .structV fs => by
    intro tag acc ro vopts m h
    rw [visit_structV] at h
    cases ro
    · rw [if_neg Bool.false_ne_true] at h
      exact errMsgF fs tag acc false (.structV fs) m h
    · rw [if_pos rfl] at h
      simp at h

theorem errMsgL : ∀ (xs : GoList) (tag : String) (acc : Nat) (ro : Bool) (m : String),
    visitSeq noHooks tag acc ro xs = .error (.goError m) → IsUnknownKindMsg m
  | .nil => by intro tag acc ro m h; simp [visitSeq] at h
  | .cons x rest => by
    intro tag acc ro m h
    simp only [visitSeq] at h
    cases hv : visit noHooks tag acc ro x none with
    | error f =>
      rw [hv] at h
      simp only [Except.error.injEq] at h
      subst h
      exact errMsgV x tag acc ro none m hv
    | ok acc1 =>
      rw [hv] at h
      exact errMsgL rest tag acc1 ro m h

theorem errMsgS : ∀ (xs : GoList) (h0 : Nat) (ro : Bool) (m : String),
    visitSet noHooks ro xs h0 = .error (.goError m) → IsUnknownKindMsg m
  | .nil => by intro h0 ro m h; simp [visitSet] at h
  | .cons x rest => by
    intro h0 ro m h
    simp only [visitSet] at h
    cases ro
    · simp only [Bool.false_eq_true, if_false] at h
      cases hv : visit noHooks "hash" 0 false x none with
      | error f =>
        rw [hv] at h
        simp only [Except.error.injEq] at h
        subst h
        exact errMsgV x "hash" 0 false none m hv
      | ok hc =>
        rw [hv] at h
        exact errMsgS rest (h0 ^^^ hc) false m h
    · simp at h

theorem errMsgE : ∀ (es : GoEntries) (fn : String) (h0 : Nat) (ro : Bool) (m : String),
    visitEntries noHooks ro none fn es h0 = .error (.goError m) → IsUnknownKindMsg m
  | .nil => by intro fn h0 ro m h; simp [visitEntries] at h
  | .cons k v rest => by
    intro fn h0 ro m h
    simp only [visitEntries, inclMapApp] at h
    cases ro
    · simp only [Bool.false_eq_true, if_false] at h
      cases hk : visit noHooks "hash" 0 false k none with
      | error f =>
        rw [hk] at h
        simp only [Except.error.injEq] at h
        subst h
        exact errMsgV k "hash" 0 false none m hk
      | ok kh =>
        rw [hk] at h
        cases hv : visit noHooks "hash" 0 false v none with
        | error f =>
          rw [hv] at h
          simp only [Except.error.injEq] at h
          subst h
          exact errMsgV v "hash" 0 false none m hv
        | ok vh =>
          rw [hv] at h
          exact errMsgE rest fn (h0 ^^^ kh ^^^ vh) false m h
    · simp at h

theorem errMsgF : ∀ (fs : GoFields) (tag : String) (acc : Nat) (ro : Bool)
    (parent : GoVal) (m : String),
    visitFields noHooks tag acc ro parent none fs = .error (.goError m) → IsUnknownKindMsg m
  | .nil => by intro tag acc ro parent m h; simp [visitFields] at h
  | .cons name tags exported val rest => by
    intro tag acc ro parent m h
    simp only [visitFields, inclApp] at h
    by_cases h1 : name = "_"
    · rw [if_pos h1] at h
      exact errMsgF rest tag acc ro parent m h
    · rw [if_neg h1] at h
      by_cases h2 : tagGet tags tag = "ignore"
      · rw [if_pos h2] at h
        exact errMsgF rest tag acc ro parent m h
      · rw [if_neg h2] at h
        cases hv : visit noHooks tag acc (ro || !exported) val
            (some ⟨tagGet tags tag = "set", some parent, name⟩) with
        | error f =>
          rw [hv] at h
          simp only [Except.error.injEq] at h
          subst h
          exact errMsgV val tag acc (ro || !exported)
            (some ⟨tagGet tags tag = "set", some parent, name⟩) m hv
        | ok acc1 =>
          rw [hv] at h
          exact errMsgF rest tag acc1 ro parent m h

end

/-! ## A reachable unsupported kind makes the walk fail -/

theorem reaches_not_ok {tag : String} {v : GoVal} (h : ReachesUnsup tag v) :
    ∀ acc ro vopts d, visit noHooks tag acc ro v vopts ≠ .ok d := by
  induction h with
  | func t => intro acc ro vopts d hok; simp [visit] at hok
  | chan t => intro acc ro vopts d hok; simp [visit] at hok
  | ptr _ ih =>
    intro acc ro vopts d hok
    rw [visit_ptrV] at hok
    exact ih acc ro vopts d hok
  | iface _ ih =>
    intro acc ro vopts d hok
    rw [visit_interfaceV] at hok
    exact ih acc ro vopts d hok
  | arrayElem pre post _ ih =>
    intro acc ro vopts d hok
    simp only [goArray] at hok
    rw [visit_arrayV, visitSeq_append] at hok
    rcases (andThenE_eq_ok _ _ _).mp hok with ⟨a, _, h2⟩
    rw [visitSeq_cons] at h2
    rcases (andThenE_eq_ok _ _ _).mp h2 with ⟨b, hb, _⟩
    exact ih a ro none b hb
  | sliceElem pre post _ _ ih ihh =>
    intro acc ro vopts d hok
    simp only [goSlice] at hok
    rw [visit_sliceV] at hok
    cases hset : optsSet vopts
    · rw [hset, if_neg Bool.false_ne_true, visitSeq_append] at hok
      rcases (andThenE_eq_ok _ _ _).mp hok with ⟨a, _, h2⟩
      rw [visitSeq_cons] at h2
      rcases (andThenE_eq_ok _ _ _).mp h2 with ⟨b, hb, _⟩
      exact ih a ro none b hb
    · rw [hset, if_pos rfl] at hok
      rcases (andThenE_eq_ok _ _ _).mp hok with ⟨a, ha, _⟩
      rw [visitSet_append] at ha
      rcases (andThenE_eq_ok _ _ _).mp ha with ⟨b, _, h2⟩
      rw [visitSet_cons] at h2
      cases ro
      · rw [if_neg Bool.false_ne_true] at h2
        rcases (andThenE_eq_ok _ _ _).mp h2 with ⟨c, hc, _⟩
        exact ihh 0 false none c hc
      · rw [if_pos rfl] at h2; simp at h2
  | mapKey pre post v _ ih =>
    intro acc ro vopts d hok
    simp only [goMap] at hok
    rw [visit_mapV, optsParentHook_noHooks] at hok
    rcases (andThenE_eq_ok _ _ _).mp hok with ⟨a, ha, _⟩
    rw [visitEntries_append] at ha
    rcases (andThenE_eq_ok _ _ _).mp ha with ⟨b, _, h2⟩
    rw [visitEntries_cons] at h2
    cases ro
    · rw [if_neg Bool.false_ne_true] at h2
      rcases (andThenE_eq_ok _ _ _).mp h2 with ⟨o, ho, _⟩
      rw [entryOutcome_none] at ho
      rcases (andThenE_eq_ok _ _ _).mp ho with ⟨kh, hkh, _⟩
      exact ih 0 false none kh hkh
    · rw [if_pos rfl] at h2; simp at h2
  | mapVal pre post k _ ih =>
    intro acc ro vopts d hok
    simp only [goMap] at hok
    rw [visit_mapV, optsParentHook_noHooks] at hok
    rcases (andThenE_eq_ok _ _ _).mp hok with ⟨a, ha, _⟩
    rw [visitEntries_append] at ha
    rcases (andThenE_eq_ok _ _ _).mp ha with ⟨b, _, h2⟩
    rw [visitEntries_cons] at h2
    cases ro
    · rw [if_neg Bool.false_ne_true] at h2
      rcases (andThenE_eq_ok _ _ _).mp h2 with ⟨o, ho, _⟩
      rw [entryOutcome_none] at ho
      rcases (andThenE_eq_ok _ _ _).mp ho with ⟨kh, _, ho2⟩
      rcases (andThenE_eq_ok _ _ _).mp ho2 with ⟨vh, hvh, _⟩
      exact ih 0 false none vh hvh
    · rw [if_pos rfl] at h2; simp at h2
  | @field tagc pre post n tg e x hne hnig _ ih =>
    intro acc ro vopts d hok
    simp only [goStruct] at hok
    rw [visit_structV] at hok
    cases ro
    · rw [if_neg Bool.false_ne_true, visitFields_append] at hok
      rcases (andThenE_eq_ok _ _ _).mp hok with ⟨a, _, h2⟩
      rw [visitFields_cons] at h2
      rcases (andThenE_eq_ok _ _ _).mp h2 with ⟨b, hb, _⟩
      unfold fieldStep at hb
      rw [if_neg hne, if_neg hnig] at hb
      exact ih a (false || !e)
        (some ⟨tagGet tg tagc = "set",
          some (.structV (goFields (pre ++ ⟨n, tg, e, x⟩ :: post))), n⟩) b hb
    · rw [if_pos rfl] at hok; simp at hok

/-! ## The Includable hook cannot matter below values free of records -/

theorem optsParentHook_constEnv (hi hi' : Option (String → GoVal → Except String Bool))
    (hm : Option (String → GoVal → GoVal → Except String Bool)) (vopts : Option VisitOpts) :
    optsParentHook (constEnv hi hm) vopts = optsParentHook (constEnv hi' hm) vopts := by
  cases vopts with
  | none => rfl
  | some o => cases h : o.parent <;> simp [optsParentHook, h, constEnv]

mutual

theorem inclIrrelV : ∀ (v : GoVal), structFree v = true →
    ∀ (hi hi' : Option (String → GoVal → Except String Bool))
      (hm : Option (String → GoVal → GoVal → Except String Bool))
      (tag : String) (acc : Nat) (ro : Bool) (vopts : Option VisitOpts),
    visit (constEnv hi hm) tag acc ro v vopts = visit (constEnv hi' hm) tag acc ro v vopts
  | .intV _ => by intro _ hi hi' hm tag acc ro vopts; simp [visit]
  | .int8V _ => by intro _ hi hi' hm tag acc ro vopts; simp [visit]
  | .int16V _ => by intro _ hi hi' hm tag acc ro vopts; simp [visit]
  | .int32V _ => by intro _ hi hi' hm tag acc ro vopts; simp [visit]
  | .int64V _ => by intro _ hi hi' hm tag acc ro vopts; simp [visit]
  | .uintV _ => by intro _ hi hi' hm tag acc ro vopts; simp [visit]
  | .uint8V _ => by intro _ hi hi' hm tag acc ro vopts; simp [visit]
  | .uint16V _ => by intro _ hi hi' hm tag acc ro vopts; simp [visit]
  | .uint32V _ => by intro _ hi hi' hm tag acc ro vopts; simp [visit]
  | .uint64V _ => by intro _ hi hi' hm tag acc ro vopts; simp [visit]
  | .boolV _ => by intro _ hi hi' hm tag acc ro vopts; simp [visit]
  | .stringV _ => by intro _ hi hi' hm tag acc ro vopts; simp [visit]
  | .ptrNil => by intro _ hi hi' hm tag acc ro vopts; simp [visit]
  | .interfaceNil => by intro _ hi hi' hm tag acc ro vopts; simp [visit]
  | .funcV => by intro _ hi hi' hm tag acc ro vopts; simp [visit]
  | .chanV => by intro _ hi hi' hm tag acc ro vopts; simp [visit]
  | .structV fs => by intro hfree; simp [structFree] at hfree
  | .ptrV x => by
    intro hfree hi hi' hm tag acc ro vopts
    rw [visit_ptrV, visit_ptrV]
    exact inclIrrelV x (by simpa [structFree] using hfree) hi hi' hm tag acc ro vopts
  | .interfaceV x => by
    intro hfree hi hi' hm tag acc ro vopts
    rw [visit_interfaceV, visit_interfaceV]
    exact inclIrrelV x (by simpa [structFree] using hfree) hi hi' hm tag acc ro vopts
  | .arrayV xs => by
    intro hfree hi hi' hm tag acc ro vopts
    rw [visit_arrayV, visit_arrayV]
    exact inclIrrelL xs (by simpa [structFree] using hfree) hi hi' hm tag acc ro
  | .sliceV xs => by
    intro hfree hi hi' hm tag acc ro vopts
    rw [visit_sliceV, visit_sliceV]
    cases optsSet vopts
    · simp only [Bool.false_eq_true, if_false]
      exact inclIrrelL xs (by simpa [structFree] using hfree) hi hi' hm tag acc ro
    · simp only [if_pos]
      rw [inclIrrelS xs (by simpa [structFree] using hfree) hi hi' hm ro 0]
  | .mapV es => by
    intro hfree hi hi' hm tag acc ro vopts
    rw [visit_mapV, visit_mapV, optsParentHook_constEnv hi hi' hm]
    rw [inclIrrelE es (by simpa [structFree] using hfree) hi hi' hm
      (optsParentHook (constEnv hi' hm) vopts) (optsField vopts) ro 0]

theorem inclIrrelL : ∀ (xs : GoList), structFreeL xs = true →
    ∀ (hi hi' : Option (String → GoVal → Except String Bool))
      (hm : Option (String → GoVal → GoVal → Except String Bool))
      (tag : String) (acc : Nat) (ro : Bool),
    visitSeq (constEnv hi hm) tag acc ro xs = visitSeq (constEnv hi' hm) tag acc ro xs
  | .nil => by intro _ hi hi' hm tag acc ro; simp [visitSeq]
  | .cons x rest => by
    intro hfree hi hi' hm tag acc ro
    simp only [structFreeL, Bool.and_eq_true] at hfree
    simp only [visitSeq]
    rw [inclIrrelV x hfree.1 hi hi' hm tag acc ro none]
    cases hv : visit (constEnv hi' hm) tag acc ro x none with
    | error f => rfl
    | ok acc1 => exact inclIrrelL rest hfree.2 hi hi' hm tag acc1 ro

theorem inclIrrelS : ∀ (xs : GoList), structFreeL xs = true →
    ∀ (hi hi' : Option (String → GoVal → Except String Bool))
      (hm : Option (String → GoVal → GoVal → Except String Bool))
      (ro : Bool) (h0 : Nat),
    visitSet (constEnv hi hm) ro xs h0 = visitSet (constEnv hi' hm) ro xs h0
  | .nil => by intro _ hi hi' hm ro h0; simp [visitSet]
  | .cons x rest => by
    intro hfree hi hi' hm ro h0
    simp only [structFreeL, Bool.and_eq_true] at hfree
    simp only [visitSet]
    cases ro
    · simp only [Bool.false_eq_true, if_false]
      rw [inclIrrelV x hfree.1 hi hi' hm "hash" 0 false none]
      cases hv : visit (constEnv hi' hm) "hash" 0 false x none with
      | error f => rfl
      | ok hc => exact inclIrrelS rest hfree.2 hi hi' hm false (h0 ^^^ hc)
    · rfl

theorem inclIrrelE : ∀ (es : GoEntries), structFreeE es = true →
    ∀ (hi hi' : Option (String → GoVal → Except String Bool))
      (hm im : Option (String → GoVal → GoVal → Except String Bool)) (fn : String)
      (ro : Bool) (h0 : Nat),
    visitEntries (constEnv hi hm) ro im fn es h0 = visitEntries (constEnv hi' hm) ro im fn es h0
  | .nil => by intro _ hi hi' hm im fn ro h0; simp [visitEntries]
  | .cons k v rest => by
    intro hfree hi hi' hm im fn ro h0
    simp only [structFreeE, Bool.and_eq_true] at hfree
    simp only [visitEntries]
    cases ro
    · simp only [Bool.false_eq_true, if_false]
      cases hh : inclMapApp im fn k v with
      | error m => rfl
      | ok b =>
        cases b
        · exact inclIrrelE rest hfree.2 hi hi' hm im fn false h0
        · rw [inclIrrelV k hfree.1.1 hi hi' hm "hash" 0 false none]
          cases hk : visit (constEnv hi' hm) "hash" 0 false k none with
          | error f => rfl
          | ok kh =>
            rw [inclIrrelV v hfree.1.2 hi hi' hm "hash" 0 false none]
            cases hv : visit (constEnv hi' hm) "hash" 0 false v none with
            | error f => rfl
            | ok vh => exact inclIrrelE rest hfree.2 hi hi' hm im fn false (h0 ^^^ kh ^^^ vh)
    · rfl

end

/-- The struct-field fold, under two global Includable hooks that agree on
every consulted name and two owning records with the same IncludableMap
capability, produces identical results when no field is named n and every
field value is free of records. -/
theorem visitFields_hookAgree
    (hi1 hi2 : Option (String → GoVal → Except String Bool))
    (hm : Option (String → GoVal → GoVal → Except String Bool)) (n : String)
    (hagree : HookAgreeExcept n hi1 hi2) (tag : String) (ro : Bool) (p1 p2 : GoVal)
    (l : List SField) (hnames : ∀ f ∈ l, f.name ≠ n)
    (hfree : ∀ f ∈ l, structFree f.val = true) :
    ∀ acc, visitFields (constEnv hi1 hm) tag acc ro p1 hi1 (goFields l)
      = visitFields (constEnv hi2 hm) tag acc ro p2 hi2 (goFields l) := by
  induction l with
  | nil => intro acc; simp [visitFields_nil]
  | cons f r ih =>
    intro acc
    rw [visitFields_cons, visitFields_cons]
    have hstep : fieldStep (constEnv hi1 hm) tag ro p1 hi1 f acc
        = fieldStep (constEnv hi2 hm) tag ro p2 hi2 f acc := by
      unfold fieldStep
      by_cases h1 : f.name = "_"
      · simp [h1]
      · rw [if_neg h1, if_neg h1]
        by_cases h2 : tagGet f.tags tag = "ignore"
        · simp [h2]
        · rw [if_neg h2, if_neg h2]
          have hhook : inclApp hi1 f.name f.val = inclApp hi2 f.name f.val := by
            rcases hagree with ⟨e1, e2⟩ | ⟨g1, g2, e1, e2, hag⟩
            · subst e1; subst e2; rfl
            · subst e1; subst e2
              exact hag f.name f.val (hnames f (List.mem_cons_self f r))
          rw [hhook]
          cases hh2 : inclApp hi2 f.name f.val with
          | error m => rfl
          | ok b =>
            cases b
            · rfl
            · rw [visit_parent_congr (constEnv hi1 hm) p1 p2 rfl tag acc (ro || !f.exported)
                (tagGet f.tags tag = "set") f.name f.val]
              exact inclIrrelV f.val (hfree f (List.mem_cons_self f r)) hi1 hi2 hm tag acc
                (ro || !f.exported) (some ⟨tagGet f.tags tag = "set", some p2, f.name⟩)
    rw [hstep]
    cases hs : fieldStep (constEnv hi2 hm) tag ro p2 hi2 f acc with
    | error e => simp [andThenE]
    | ok a =>
      simp only [andThenE]
      exact ih (fun g hg => hnames g (List.mem_cons_of_mem f hg))
        (fun g hg => hfree g (List.mem_cons_of_mem f hg)) a

/-! ## Small helpers for the claim statements -/

theorem xor_left_comm (a b c : Nat) : a ^^^ (b ^^^ c) = b ^^^ (a ^^^ c) := by
  rw [← Nat.xor_assoc, Nat.xor_comm a b, Nat.xor_assoc]

theorem xor_exchange (h p q r s : Nat) :
    h ^^^ (p ^^^ q) ^^^ (r ^^^ s) = h ^^^ (p ^^^ s) ^^^ (r ^^^ q) := by
  simp only [Nat.xor_assoc]
  congr 2
  rw [xor_left_comm q r s, xor_left_comm s r q, Nat.xor_comm q s]

theorem fieldStep_ignore (env : HookEnv) (tag : String) (ro : Bool) (parent : GoVal)
    (incl : Option (String → GoVal → Except String Bool)) (f : SField) (acc : Nat)
    (hig : tagGet f.tags tag = "ignore") : fieldStep env tag ro parent incl f acc = .ok acc := by
  unfold fieldStep
  by_cases h1 : f.name = "_"
  · simp [h1]
  · simp [h1, hig]

/-- Processing the two entries of a two-entry map with the values exchanged
across the entries succeeds in exactly the same cases with the same total:
the flat xor of the key and value sub-digests cannot tell them apart. -/
theorem entries_exchange (env : HookEnv) (fn : String) (a b x y : GoVal) (h0 : Nat) :
    OkIff (visitEntries env false none fn (goEntries [(a, x), (b, y)]) h0)
      (visitEntries env false none fn (goEntries [(a, y), (b, x)]) h0) := by
  rw [visitEntries_cons, visitEntries_cons]
  simp only [if_neg Bool.false_ne_true]
  rw [entryOutcome_none, entryOutcome_none]
  cases ha : visit env "hash" 0 false a none with
  | error f => simp only [andThenE]; exact OkIff.refl
  | ok ah =>
    simp only [andThenE]
    cases hx : visit env "hash" 0 false x none with
    | error f =>
      cases hy : visit env "hash" 0 false y none with
      | error g => exact okIff_of_errors (by simp [andThenE]) (by simp [andThenE])
      | ok yh =>
        simp only [andThenE]
        refine okIff_of_errors (by simp [andThenE]) fun d hok => ?_
        rw [visitEntries_cons] at hok
        simp only [if_neg Bool.false_ne_true] at hok
        rw [entryOutcome_none] at hok
        rcases (andThenE_eq_ok _ _ _).mp hok with ⟨o, ho, _⟩
        rcases (andThenE_eq_ok _ _ _).mp ho with ⟨bh, hbh, h2⟩
        rcases (andThenE_eq_ok _ _ _).mp h2 with ⟨xh, hxh, _⟩
        exact absurd hxh (by simp [hx])
    | ok xh =>
      simp only [andThenE]
      cases hy : visit env "hash" 0 false y none with
      | error g =>
        refine okIff_of_errors (fun d hok => ?_) (by simp [andThenE])
        rw [visitEntries_cons] at hok
        simp only [if_neg Bool.false_ne_true] at hok
        rw [entryOutcome_none] at hok
        rcases (andThenE_eq_ok _ _ _).mp hok with ⟨o, ho, _⟩
        rcases (andThenE_eq_ok _ _ _).mp ho with ⟨bh, hbh, h2⟩
        rcases (andThenE_eq_ok _ _ _).mp h2 with ⟨yh, hyh, _⟩
        exact absurd hyh (by simp [hy])
      | ok yh =>
        simp only [andThenE]
        rw [visitEntries_cons, visitEntries_cons]
        simp only [if_neg Bool.false_ne_true]
        rw [entryOutcome_none, entryOutcome_none]
        cases hb : visit env "hash" 0 false b none with
        | error g => simp only [andThenE]; exact OkIff.refl
        | ok bh =>
          simp only [andThenE]
          rw [hx, hy]
          simp only [andThenE]
          rw [visitEntries_nil, visitEntries_nil]
          exact OkIff.of_eq (by rw [xor_exchange])

theorem optsParentHook_none (env : HookEnv) : optsParentHook env none = none := rfl

theorem optsField_none : optsField none = "" := rfl

/-! ## The claims -/

/-- C1, counterexample: the two mappings of the claim's own example,
with A mapped to 1 and B to 2 versus A mapped to 2 and B to 1, receive the
SAME digest, refuting the claim that the xor pairing of key and value
sub-digests makes them differ. -/
theorem claim1_counterexample :
    Hash noHooks (goMap [(.stringV [65], .intV 1), (.stringV [66], .intV 2)])
      = Hash noHooks (goMap [(.stringV [65], .intV 2), (.stringV [66], .intV 1)]) := by
  decide

/-- C1, amended: the visitor xors the key sub-digest and the value
sub-digest of each retained entry into the running total; because this is a
flat xor it does NOT prevent cross-entry collisions: two mappings that
differ only by exchanging values across entries succeed in exactly the same
cases and receive the same digest. -/
theorem claim1_amended (env : HookEnv) (a b x y : GoVal) (d : Nat) :
    Hash env (goMap [(a, x), (b, y)]) = .ok d
      ↔ Hash env (goMap [(a, y), (b, x)]) = .ok d := by
  unfold Hash
  simp only [goMap]
  rw [visit_mapV, visit_mapV, optsParentHook_none, optsField_none]
  exact okIff_andThenE (entries_exchange env "" a b x y 0) (fun h => OkIff.refl) d

/-- C1, witness for the amended claim at the example input: both mappings
hash to the same concrete digest. -/
theorem claim1_amended_witness :
    Hash noHooks (goMap [(.stringV [65], .intV 2), (.stringV [66], .intV 1)])
      = .ok 12169040754408921707 :=
  (claim1_amended noHooks (.stringV [65]) (.stringV [66]) (.intV 1) (.intV 2)
    12169040754408921707).mp (by decide)

/-- C2: the code contradicts the claim (and its own documentation comment,
hashstructure.go lines 32 to 33): the struct case iterates every field
whose name is not the blank identifier with no exportedness check, so the
content of an unexported int field flows into the digest; two records
differing only in that hidden member hash to different digests. -/
theorem claim2_code_bug :
    Hash noHooks (goStruct [⟨"X", [], true, .intV 1⟩, ⟨"y", [], false, .intV 1⟩])
      = .ok 15222868434935367367
    ∧ Hash noHooks (goStruct [⟨"X", [], true, .intV 1⟩, ⟨"y", [], false, .intV 2⟩])
      = .ok 3339823692725336450
    ∧ decide (Hash noHooks (goStruct [⟨"X", [], true, .intV 1⟩, ⟨"y", [], false, .intV 1⟩])
        = Hash noHooks (goStruct [⟨"X", [], true, .intV 1⟩, ⟨"y", [], false, .intV 2⟩])) = false := by
  refine ⟨by decide, by decide, by decide⟩

/-- C3, counterexample: a nil pointer hashes as a zero 8-bit integer (one
zero byte), while an explicit int64 zero hashes as eight zero bytes, so the
two digests differ. -/
theorem claim3_counterexample :
    Hash noHooks .ptrNil = .ok 2282658103124508505
    ∧ Hash noHooks (.int64V 0) = .ok 13144445341178972864
    ∧ decide (Hash noHooks .ptrNil = Hash noHooks (.int64V 0)) = false := by
  refine ⟨by decide, by decide, by decide⟩

/-- C3, amended: an absent reference is canonicalized to a zero-valued
8-bit integer, so its digest coincides with the digest of a zero value of
the referenced kind exactly when that zero's canonical encoding is the
single zero byte (for example int8 zero and bool false), and a nil
interface behaves the same as a nil pointer; it does not coincide for wider
kinds such as int64. -/
theorem claim3_amended (env : HookEnv) :
    Hash env .ptrNil = Hash env (.int8V 0)
    ∧ Hash env .ptrNil = Hash env (.boolV false)
    ∧ Hash env .interfaceNil = Hash env .ptrNil := by
  exact ⟨rfl, rfl, rfl⟩

/-- C4: determinism across enumeration orders: with fixed options (any tag
name, the CRC-64 accumulator) and any hook environment whose capability
queries and hook results cannot observe enumeration order (every
environment expressible in Go), two values equal up to the enumeration
order of the maps inside them succeed in exactly the same cases and produce
identical digests. -/
theorem claim4 (env : HookEnv) (hr : EnvRespects env) {v1 v2 : GoVal}
    (he : EnumEquiv v1 v2) (tagName : String) (d : Nat) :
    HashT env tagName v1 = .ok d ↔ HashT env tagName v2 = .ok d :=
  enumEquiv_okIff he env hr tagName 0 false none d

/-- C4, witness: the default environment respects enumeration-order
equivalence, the two enumeration orders of a concrete two-entry map are
equivalent, and the permuted enumeration produces the same concrete
digest. -/
theorem claim4_witness :
    EnvRespects noHooks
    ∧ EnumEquiv (goMap [(.intV 1, .intV 2), (.intV 3, .intV 4)])
        (goMap [(.intV 3, .intV 4), (.intV 1, .intV 2)])
    ∧ HashT noHooks "hash" (goMap [(.intV 3, .intV 4), (.intV 1, .intV 2)])
        = .ok 1345590495685516378 :=
  ⟨envRespects_noHooks,
   Relation.ReflTransGen.single (Step.mapPerm _ _ (List.Perm.swap _ _ _)),
   (claim4 noHooks envRespects_noHooks
     (Relation.ReflTransGen.single (Step.mapPerm _ _ (List.Perm.swap _ _ _)))
     "hash" 1345590495685516378).mp (by decide)⟩

/-- C5: order independence of mappings: for any two enumeration orders of
the same entries (any permutation), hashing the map succeeds in exactly the
same cases and yields the same digest, for every hook environment (a
top-level map has no owning record, so no entry hook is consulted). -/
theorem claim5 (env : HookEnv) {es1 es2 : List (GoVal × GoVal)} (hp : es1.Perm es2)
    (d : Nat) :
    Hash env (goMap es1) = .ok d ↔ Hash env (goMap es2) = .ok d := by
  unfold Hash
  simp only [goMap]
  rw [visit_mapV, visit_mapV]
  exact okIff_andThenE (visitEntries_perm env false _ _ hp 0) (fun a => OkIff.refl) d

/-- C5, witness: a concrete permutation of a two-entry map and the equal
concrete digest of the permuted enumeration. -/
theorem claim5_witness :
    List.Perm [((.intV 10 : GoVal), (.intV 20 : GoVal)), (.intV 30, .intV 40)]
      [(.intV 30, .intV 40), (.intV 10, .intV 20)]
    ∧ Hash noHooks (goMap [(.intV 30, .intV 40), (.intV 10, .intV 20)])
        = .ok 2728414895759395519 :=
  ⟨List.Perm.swap _ _ _,
   (claim5 noHooks (List.Perm.swap _ _ _) 2728414895759395519).mp (by decide)⟩

/-- C6: indirection transparency: wrapping a value in any number of layers
of pointers and interface boxes leaves the digest (and the error behavior)
of the entry point unchanged, for every hook environment. -/
theorem claim6 (env : HookEnv) (ws : List Bool) (v : GoVal) :
    Hash env (wrapRefs ws v) = Hash env v := by
  unfold Hash
  induction ws with
  | nil => rfl
  | cons b r ih =>
    cases b
    · rw [show wrapRefs (false :: r) v = .interfaceV (wrapRefs r v) from rfl,
        visit_interfaceV, ih]
    · rw [show wrapRefs (true :: r) v = .ptrV (wrapRefs r v) from rfl,
        visit_ptrV, ih]

/-- C7: a member whose annotation under the walker's tag key is ignore is
skipped before the Includable hook is consulted.  First part: with any
single (receiver-independent, as the specification describes the hooks)
Includable and IncludableMap capability, changing only the ignored member's
value never changes the result.  Second part: the hook is never consulted
for that member: two hooks that agree on every field name other than the
ignored member's name (and may disagree arbitrarily there) give identical
results, provided the record's other members do not reuse that name and
their values contain no nested records (which would consult the same
type-level hook again). -/
theorem claim7 :
    (∀ (hi : Option (String → GoVal → Except String Bool))
       (hm : Option (String → GoVal → GoVal → Except String Bool))
       (tagName : String) (pre post : List SField) (n : String)
       (tags : List (String × String)) (ex : Bool) (u1 u2 : GoVal)
       (acc : Nat) (ro : Bool) (vopts : Option VisitOpts),
      tagGet tags tagName = "ignore" →
      visit (constEnv hi hm) tagName acc ro
          (goStruct (pre ++ ⟨n, tags, ex, u1⟩ :: post)) vopts
        = visit (constEnv hi hm) tagName acc ro
          (goStruct (pre ++ ⟨n, tags, ex, u2⟩ :: post)) vopts)
    ∧ (∀ (hi1 hi2 : Option (String → GoVal → Except String Bool))
       (hm : Option (String → GoVal → GoVal → Except String Bool))
       (tagName : String) (pre post : List SField) (n : String)
       (tags : List (String × String)) (ex : Bool) (u1 u2 : GoVal)
       (acc : Nat) (ro : Bool) (vopts : Option VisitOpts),
      tagGet tags tagName = "ignore" →
      (∀ f ∈ pre ++ post, f.name ≠ n) →
      (∀ f ∈ pre ++ post, structFree f.val = true) →
      HookAgreeExcept n hi1 hi2 →
      visit (constEnv hi1 hm) tagName acc ro
          (goStruct (pre ++ ⟨n, tags, ex, u1⟩ :: post)) vopts
        = visit (constEnv hi2 hm) tagName acc ro
          (goStruct (pre ++ ⟨n, tags, ex, u2⟩ :: post)) vopts) := by
  constructor
  · intro hi hm tagName pre post n tags ex u1 u2 acc ro vopts hig
    simp only [goStruct]
    rw [visit_structV, visit_structV]
    cases ro
    · simp only [Bool.false_eq_true, if_false]
      simp only [show ∀ p, (constEnv hi hm).incl p = hi from fun _ => rfl]
      rw [visitFields_append, visitFields_append,
        visitFields_parent_congr (constEnv hi hm)
          (.structV (goFields (pre ++ ⟨n, tags, ex, u1⟩ :: post)))
          (.structV (goFields (pre ++ ⟨n, tags, ex, u2⟩ :: post))) rfl tagName false hi pre]
      refine congrArg (andThenE _) (funext fun a => ?_)
      rw [visitFields_cons, visitFields_cons,
        fieldStep_ignore _ _ _ _ _ _ _ hig, fieldStep_ignore _ _ _ _ _ _ _ hig]
      simp only [andThenE]
      exact visitFields_parent_congr (constEnv hi hm)
        (.structV (goFields (pre ++ ⟨n, tags, ex, u1⟩ :: post)))
        (.structV (goFields (pre ++ ⟨n, tags, ex, u2⟩ :: post))) rfl tagName false hi post a
    · simp only [if_pos]
  · intro hi1 hi2 hm tagName pre post n tags ex u1 u2 acc ro vopts hig hnames hfree hagree
    simp only [goStruct]
    rw [visit_structV, visit_structV]
    cases ro
    · simp only [Bool.false_eq_true, if_false]
      simp only [show ∀ p, (constEnv hi1 hm).incl p = hi1 from fun _ => rfl,
        show ∀ p, (constEnv hi2 hm).incl p = hi2 from fun _ => rfl]
      rw [visitFields_append, visitFields_append,
        visitFields_hookAgree hi1 hi2 hm n hagree tagName false
          (.structV (goFields (pre ++ ⟨n, tags, ex, u1⟩ :: post)))
          (.structV (goFields (pre ++ ⟨n, tags, ex, u2⟩ :: post))) pre
          (fun f hf => hnames f (List.mem_append_left post hf))
          (fun f hf => hfree f (List.mem_append_left post hf))]
      refine congrArg (andThenE _) (funext fun a => ?_)
      rw [visitFields_cons, visitFields_cons,
        fieldStep_ignore _ _ _ _ _ _ _ hig, fieldStep_ignore _ _ _ _ _ _ _ hig]
      simp only [andThenE]
      exact visitFields_hookAgree hi1 hi2 hm n hagree tagName false
        (.structV (goFields (pre ++ ⟨n, tags, ex, u1⟩ :: post)))
        (.structV (goFields (pre ++ ⟨n, tags, ex, u2⟩ :: post))) post
        (fun f hf => hnames f (List.mem_append_right pre hf))
        (fun f hf => hfree f (List.mem_append_right pre hf)) a
    · simp only [if_pos]

/-- C7, witness: a record with an exposed member A and a member U annotated
ignore; changing U's value and simultaneously exchanging the hook for one
that answers differently at U leaves the result unchanged. -/
theorem claim7_witness :
    tagGet [("hash", "ignore")] "hash" = "ignore"
    ∧ HookAgreeExcept "U" (some fun _ _ => .ok true)
        (some fun m _ => .ok (m != "U"))
    ∧ visit (constEnv (some fun _ _ => .ok true) none) "hash" 0 false
        (goStruct [⟨"A", [], true, .intV 7⟩, ⟨"U", [("hash", "ignore")], true, .intV 1⟩]) none
      = visit (constEnv (some fun m _ => .ok (m != "U")) none) "hash" 0 false
        (goStruct [⟨"A", [], true, .intV 7⟩, ⟨"U", [("hash", "ignore")], true, .intV 2⟩]) none := by
  refine ⟨rfl, Or.inr ⟨_, _, rfl, rfl, fun m v hm => by simp [hm]⟩, ?_⟩
  exact claim7.2 (some fun _ _ => .ok true) (some fun m _ => .ok (m != "U")) none
    "hash" [⟨"A", [], true, .intV 7⟩] [] "U" [("hash", "ignore")] true (.intV 1) (.intV 2)
    0 false none rfl
    (by intro f hf; simp only [List.append_nil, List.mem_singleton] at hf; subst hf; decide)
    (by intro f hf; simp only [List.append_nil, List.mem_singleton] at hf; subst hf; rfl)
    (Or.inr ⟨_, _, rfl, rfl, fun m v hm => by simp [hm]⟩)

/-- C8: reaching a value of an unsupported classification makes the whole
call fail.  The components: hashing a func or chan value directly returns
the zero digest with the unknown-kind error naming the kind; any failing
walk makes Hash return the zero digest paired with the failure (no partial
digest); without hooks, every error the walker returns is an unknown-kind
error naming func or chan; and whenever the traversal reaches an
unsupported value at a visited position, the call cannot succeed. -/
theorem claim8 :
    HashPair noHooks .funcV = (0, some (.goError "unknown kind to hash: func"))
    ∧ HashPair noHooks .chanV = (0, some (.goError "unknown kind to hash: chan"))
    ∧ (∀ (env : HookEnv) (v : GoVal) (f : Failure),
        Hash env v = .error f → HashPair env v = (0, some f))
    ∧ (∀ (v : GoVal) (m : String),
        Hash noHooks v = .error (.goError m) → IsUnknownKindMsg m)
    ∧ (∀ (tagName : String) (v : GoVal), ReachesUnsup tagName v →
        ∀ d, HashT noHooks tagName v ≠ .ok d) := by
  refine ⟨rfl, rfl, ?_, ?_, ?_⟩
  · intro env v f h
    simp only [HashPair, h]
  · intro v m h
    exact errMsgV v "hash" 0 false none m h
  · intro tagName v hr d
    exact reaches_not_ok hr 0 false none d

/-- C8, witness: a slice containing a function value after an int hashes to
the zero digest with the unknown-kind error for func; the message is an
unknown-kind message; and a slice containing a func value can never hash
successfully. -/
theorem claim8_witness :
    HashPair noHooks (goSlice [.intV 3, .funcV])
        = (0, some (.goError "unknown kind to hash: func"))
    ∧ IsUnknownKindMsg "unknown kind to hash: func"
    ∧ HashT noHooks "hash" (goSlice [.funcV]) ≠ .ok 0 :=
  ⟨claim8.2.2.1 noHooks (goSlice [.intV 3, .funcV])
     (.goError "unknown kind to hash: func") (by decide),
   claim8.2.2.2.1 .funcV "unknown kind to hash: func" rfl,
   claim8.2.2.2.2 "hash" (goSlice [.funcV])
     (ReachesUnsup.sliceElem [] [] (.func "hash") (.func "hash")) 0⟩

/-- C9, counterexample: a caller-supplied options record with both fields
at their zero values is mutated by the call: defaulting writes the fresh
CRC-64 hasher and the tag name hash back through the caller's pointer, so
after the call the caller's record differs from what it passed in. -/
theorem claim9_counterexample :
    (HashWithOptions noHooks (.int8V 0) (some ⟨none, ""⟩)).2
        = some (⟨some .defaultCRC, "hash"⟩ : HashOptions)
    ∧ decide ((⟨some .defaultCRC, "hash"⟩ : HashOptions) = ⟨none, ""⟩) = false := by
  refine ⟨by decide, by decide⟩

/-- C9, amended: the options record is left unchanged by a call exactly
when no defaulting applies: if both fields are already non-zero the
caller's record is unchanged after the call, and a nil options argument
involves no caller state at all; a zero field, however, is overwritten with
its default through the caller's pointer. -/
theorem claim9_amended (env : HookEnv) (v : GoVal) (o : HashOptions)
    (h1 : o.Hasher ≠ none) (h2 : o.TagName ≠ "") :
    (HashWithOptions env v (some o)).2 = some o
    ∧ (HashWithOptions env v none).2 = none := by
  constructor
  · simp [HashWithOptions, applyDefaults, h1, h2]
  · simp [HashWithOptions]

/-- C9, witness for the amended claim: an options record with a supplied
hasher and a custom tag name is returned to the caller unchanged. -/
theorem claim9_amended_witness :
    (⟨some (.supplied 5), "k"⟩ : HashOptions).Hasher ≠ none
    ∧ (⟨some (.supplied 5), "k"⟩ : HashOptions).TagName ≠ ""
    ∧ (HashWithOptions noHooks (.int8V 0) (some ⟨some (.supplied 5), "k"⟩)).2
        = some (⟨some (.supplied 5), "k"⟩ : HashOptions) :=
  ⟨by decide, by decide,
   (claim9_amended noHooks (.int8V 0) ⟨some (.supplied 5), "k"⟩
     (by decide) (by decide)).1⟩

/-- C10: sub-digests of map entries and of set-tagged slice elements are
computed through the entry point with nil options, so with a fresh default
CRC-64 accumulator and the default tag key hash.  First two parts: the
result of visiting a map, or a slice in a set-flagged context, never
depends on the walker's tag name.  Last two parts, concretely: under a
caller tag key k, an annotation k:ignore is honored on a struct hashed at
top level (the digest ignores the field), but not on the same struct
nested as a map value, where the sub-hash reads tags under hash instead
and the field changes the digest. -/
theorem claim10 :
    (∀ (env : HookEnv) (t1 t2 : String) (acc : Nat) (ro : Bool)
       (vopts : Option VisitOpts) (es : GoEntries),
      visit env t1 acc ro (.mapV es) vopts = visit env t2 acc ro (.mapV es) vopts)
    ∧ (∀ (env : HookEnv) (t1 t2 : String) (acc : Nat) (ro : Bool)
       (p : Option GoVal) (sf : String) (xs : GoList),
      visit env t1 acc ro (.sliceV xs) (some ⟨true, p, sf⟩)
        = visit env t2 acc ro (.sliceV xs) (some ⟨true, p, sf⟩))
    ∧ HashT noHooks "k" (goStruct [⟨"F", [("k", "ignore")], true, .intV 5⟩])
        = HashT noHooks "k" (goStruct [⟨"F", [("k", "ignore")], true, .intV 6⟩])
    ∧ decide (HashT noHooks "k" (goMap [(.intV 1, goStruct [⟨"F", [("k", "ignore")], true, .intV 5⟩])])
        = HashT noHooks "k" (goMap [(.intV 1, goStruct [⟨"F", [("k", "ignore")], true, .intV 6⟩])]))
      = false := by
  refine ⟨?_, ?_, by decide, by decide⟩
  · intro env t1 t2 acc ro vopts es
    rw [visit_mapV, visit_mapV]
  · intro env t1 t2 acc ro p sf xs
    rw [visit_sliceV, visit_sliceV]
    simp [optsSet]

end Hashstructure
